import Mathlib

/-!
Shallow embedding of `compare.py`, a two-file KiCad netlist comparator.

The program parses two netlist files into dictionaries (net name ↦ net code and
node list), diffs the node lists per net, sorts the per-net results, and renders
an HTML report by substituting three placeholders in a template.

Modelling conventions:
* Python dictionaries become association lists with in-place overwrite on update
  (`updateMap`), which preserves the "last assignment wins" semantics of
  `dict[k] = v`.
* Python strings are Lean `String`s; where the Python code manipulates strings
  character by character (regexes, `str.replace`, `str.strip`, comparison) the
  model works on the underlying `List Char`.  `\d` in the regexes is modelled
  as the ASCII digits and `str.strip` as trimming the standard whitespace
  characters; the input files this program reads are ASCII.
* File I/O becomes an explicit argument: `parse_netlist` receives the outcome
  of reading the file as an `Except PyErr (List String)` (the list of lines on
  success), mirroring the `try/except` structure of the source.  Printed error
  messages are returned as a list of strings.
* `re.match`/`re.search` with the three fixed patterns of the source are
  modelled by dedicated scanning functions that implement exactly the
  leftmost-match-with-backtracking semantics of those patterns
  (`matchNetDecl`, `matchNodeDecl`, `extractRef`).
-/

/-- `leadsWith pat s` is true when the string `s` begins with the pattern
`pat` (both as character lists); this models Python's `str.startswith` and the
anchored literal parts of the regexes. -/
def leadsWith : List Char → List Char → Bool
  | [], _ => true
  | _ :: _, [] => false
  | p :: ps, c :: cs => p == c && leadsWith ps cs

/-- `containsSub pat s` is true when `pat` occurs as a contiguous substring of
`s`; this models Python's `pat in s`. -/
def containsSub (pat : List Char) : List Char → Bool
  | [] => leadsWith pat []
  | c :: cs => leadsWith pat (c :: cs) || containsSub pat cs

/-- `subAt s pat i` is true when `pat` occurs in `s` starting at index `i`. -/
def subAt (s pat : List Char) (i : Nat) : Bool :=
  leadsWith pat (s.drop i)

/-- Split `s` at the first occurrence of `pat`: returns the part before the
occurrence and the part after it.  This is the semantics of a non-greedy
`(.*?)` capture followed by the literal `pat` at the end of a regex. -/
def splitFirst (pat : List Char) : List Char → Option (List Char × List Char)
  | [] => none
  | c :: cs =>
    if leadsWith pat (c :: cs) then some ([], (c :: cs).drop pat.length)
    else (splitFirst pat cs).map (fun pr => (c :: pr.1, pr.2))

/-- Python's `str.strip()`: remove leading and trailing whitespace. -/
def pyStrip (cs : List Char) : List Char :=
  ((cs.dropWhile Char.isWhitespace).reverse.dropWhile Char.isWhitespace).reverse

/-- Python dict assignment `m[k] = v`: overwrite the value at an existing key
in place, otherwise add the binding at the end. -/
def updateMap {α : Type} : List (String × α) → String → α → List (String × α)
  | [], k, v => [(k, v)]
  | (k', v') :: rest, k, v =>
    if k' == k then (k', v) :: rest else (k', v') :: updateMap rest k v

/-- Python `m.get(k)` / `m[k]`: look a key up in an association list. -/
def lookupMap {α : Type} : List (String × α) → String → Option α
  | [], _ => none
  | (k', v') :: rest, k => if k' == k then some v' else lookupMap rest k

/-- The value stored per net by the parser: the net code and the ordered list
of formatted node strings (Python `{'code': ..., 'nodes': [...]}`). -/
structure NetEntry where
  code : String
  nodes : List String
deriving DecidableEq, Repr

/-- `connections[net_name]['nodes'].append(node)`: append a node string to the
entry of `k`.  (Unreachable on an absent key when called from `parse_netlist`,
since a current net is always registered before nodes are appended.) -/
def appendNode : List (String × NetEntry) → String → String → List (String × NetEntry)
  | [], _, _ => []
  | (k', e) :: rest, k, node =>
    if k' == k then (k', { e with nodes := e.nodes ++ [node] }) :: rest
    else (k', e) :: appendNode rest k node

/-- The literal regex fragment `(net (code "` that anchors the net pattern. -/
def netLit : List Char := "(net (code \"".data

/-- The literal regex fragment `") (name "` between the two net captures. -/
def nameLit : List Char := "\") (name \"".data

/-- The literal regex fragment `")` that closes a quoted capture. -/
def closeLit : List Char := "\")".data

/-- The literal regex fragment `(node (ref "` that anchors the node pattern. -/
def nodeLit : List Char := "(node (ref \"".data

/-- The literal regex fragment `") (pin "` between the two node captures. -/
def pinLit : List Char := "\") (pin \"".data

/-- The literal regex fragment `(ref "` searched for by `categorize_nodes`. -/
def refLit : List Char := "(ref \"".data

/-- Strip the literal `pat` from the front of `s`, if present. -/
def stripLead (pat s : List Char) : Option (List Char) :=
  if leadsWith pat s then some (s.drop pat.length) else none

/-- `re.match(r'\(net \(code "(\d+)"\) \(name "(.*?)"\)', line)`: the anchored
literal, one or more digits (greedy, then the closing quote), the middle
literal, then a non-greedy capture up to the first `")`.  Returns the two
captures (code, name). -/
def matchNetDecl (line : List Char) : Option (String × String) :=
  match stripLead netLit line with
  | none => none
  | some rest =>
    let ds := rest.takeWhile Char.isDigit
    if ds.isEmpty then none
    else
      match stripLead nameLit (rest.drop ds.length) with
      | none => none
      | some rest2 =>
        (splitFirst closeLit rest2).map (fun pr => (⟨ds⟩, ⟨pr.1⟩))

/-- The scan performed by the backtracking engine for
`"(.*?)"\) \(pin "(.*?)"\)`: find the first position where the middle literal
`") (pin "` matches and a later `")` exists (so that the rest of the pattern
can still succeed), and return (capture, remainder after the literal). -/
def findPinSplit : List Char → Option (List Char × List Char)
  | [] => none
  | c :: cs =>
    if leadsWith pinLit (c :: cs) && containsSub closeLit ((c :: cs).drop pinLit.length) then
      some ([], (c :: cs).drop pinLit.length)
    else (findPinSplit cs).map (fun pr => (c :: pr.1, pr.2))

/-- `re.match(r'\(node \(ref "(.*?)"\) \(pin "(.*?)"\)', line)`: the anchored
literal, then the two non-greedy captures (ref, pin). -/
def matchNodeDecl (line : List Char) : Option (String × String) :=
  match stripLead nodeLit line with
  | none => none
  | some rest =>
    match findPinSplit rest with
    | none => none
    | some (ref, rest2) =>
      (splitFirst closeLit rest2).map (fun pr => (⟨ref⟩, ⟨pr.1⟩))

/-- The f-string `f'(node (ref "{ref}") (pin "{pin}"))'` used to format a
parsed node. -/
def fmtNode (ref pin : String) : String :=
  "(node (ref \"" ++ ref ++ "\") (pin \"" ++ pin ++ "\"))"

/-- The loop state of `parse_netlist`: the two dictionaries being built, the
current `net_name` and `net_code` variables, and the `in_nets_section` flag. -/
structure PState where
  connections : List (String × NetEntry)
  net_codes : List (String × String)
  net_name : Option String
  net_code : Option String
  in_nets : Bool
deriving DecidableEq, Repr

/-- The initial state of the parse loop. -/
def initPState : PState :=
  { connections := [], net_codes := [], net_name := none, net_code := none, in_nets := false }

/-- The node-line half of the loop body (the second `if` of the loop): inside
the nets section, on a line starting with `(node`, if a current net is active
(`if net_name:` — false for `None` and for the empty string) and the node
pattern matches, append the formatted node to the current net's list. -/
def nodeStep (st : PState) (line : List Char) : PState :=
  if st.in_nets && leadsWith "(node".data line then
    match st.net_name with
    | none => st
    | some nm =>
      if nm == "" then st
      else
        match matchNodeDecl line with
        | none => st
        | some (ref, pin) =>
          { st with connections := appendNode st.connections nm (fmtNode ref pin) }
  else st

/-- One iteration of the `for line in lines` loop of `parse_netlist`: strip
the line; `(nets` enters the nets section, `(components` leaves it; inside the
section a line starting with `(net` that matches the net pattern registers a
new current net in both dictionaries (overwriting any previous entry for the
same name); otherwise control falls through to the node-line check. -/
def stepLine (st : PState) (raw : String) : PState :=
  let line := pyStrip raw.data
  if leadsWith "(nets".data line then { st with in_nets := true }
  else if leadsWith "(components".data line then { st with in_nets := false }
  else if st.in_nets && leadsWith "(net".data line then
    match matchNetDecl line with
    | some (code, name) =>
      { st with
        connections := updateMap st.connections name { code := code, nodes := [] },
        net_codes := updateMap st.net_codes name code,
        net_name := some name,
        net_code := some code }
    | none => nodeStep st line
  else nodeStep st line

/-- The outcome of `open(file_path).readlines()` in the model: either the list
of lines, or the exception Python would raise. -/
inductive PyErr where
  | fileNotFound : PyErr
  | other : String → PyErr
deriving DecidableEq, Repr

/-- `parse_netlist(file_path)`: on a successful read, fold the loop body over
the lines and return `(connections, net_codes)` with no error output; on
`FileNotFoundError` or any other exception, the handler prints a message and
the function returns the still-empty dictionaries.  The third component is the
list of messages printed. -/
def parse_netlist (file_path : String) (read : Except PyErr (List String)) :
    List (String × NetEntry) × List (String × String) × List String :=
  match read with
  | .ok lines =>
    let st := lines.foldl stepLine initPState
    (st.connections, st.net_codes, [])
  | .error .fileNotFound =>
    ([], [], ["Error: File " ++ file_path ++ " not found."])
  | .error (.other e) =>
    ([], [], ["Error: An unexpected error occurred while parsing " ++ file_path ++ " - " ++ e])

/-- `re.search(r'\(ref "(.*?)"\)', node)`: scan for the first position where
the literal `(ref "` matches and a later `")` exists, and return the capture
between them. -/
def extractRef : List Char → Option String
  | [] => none
  | c :: cs =>
    if leadsWith refLit (c :: cs) && containsSub closeLit ((c :: cs).drop refLit.length) then
      (splitFirst closeLit ((c :: cs).drop refLit.length)).map (fun pr => (⟨pr.1⟩ : String))
    else extractRef cs

/-- The counts dictionary built by `categorize_nodes`. -/
structure Categories where
  capacitors : Nat
  resistors : Nat
  others : Nat
deriving DecidableEq, Repr

/-- One iteration of the `categorize_nodes` loop: extract the ref; if it
starts with `"C"` count a capacitor, else if it starts with `"R"` a resistor,
else an other; a node with no extractable ref is not counted at all. -/
def categorizeStep (cat : Categories) (node : String) : Categories :=
  match extractRef node.data with
  | none => cat
  | some ref =>
    if leadsWith "C".data ref.data then { cat with capacitors := cat.capacitors + 1 }
    else if leadsWith "R".data ref.data then { cat with resistors := cat.resistors + 1 }
    else { cat with others := cat.others + 1 }

/-- `categorize_nodes(nodes)`: fold the categorization over the node list. -/
def categorize_nodes (nodes : List String) : Categories :=
  nodes.foldl categorizeStep { capacitors := 0, resistors := 0, others := 0 }

/-- One row of the summary `results` list:
`(net_name, net_code1, count1, net_code2, count2, is_mismatch)`. -/
structure NetResult where
  net_name : String
  net_code1 : String
  count1 : Nat
  net_code2 : String
  count2 : Nat
  mismatch : Bool
deriving DecidableEq, Repr

/-- One entry of `detailed_mismatches`:
`(net_name, unique_nodes1, count_unique1, unique_nodes2, count_unique2)`. -/
structure DetailEntry where
  net_name : String
  unique_nodes1 : List String
  count_unique1 : Nat
  unique_nodes2 : List String
  count_unique2 : Nat
deriving DecidableEq, Repr

/-- `netlist.get(net_name, {'nodes': []})['nodes']`. -/
def nodesOf (netlist : List (String × NetEntry)) (n : String) : List String :=
  ((lookupMap netlist n).map NetEntry.nodes).getD []

/-- `net_codes.get(net_name, 'N/A')`. -/
def codeOf (net_codes : List (String × String)) (n : String) : String :=
  (lookupMap net_codes n).getD "N/A"

/-- `[node for node in xs if node not in ys]`: the nodes of one side whose
formatted string does not occur anywhere in the other side's node list. -/
def uniqueNodes (xs ys : List String) : List String :=
  xs.filter (fun node => !(ys.contains node))

/-- The summary row the comparison loop builds for one net name. -/
def netResultOf (nl1 : List (String × NetEntry)) (nc1 : List (String × String))
    (nl2 : List (String × NetEntry)) (nc2 : List (String × String)) (n : String) : NetResult :=
  let nodes1 := nodesOf nl1 n
  let nodes2 := nodesOf nl2 n
  { net_name := n
    net_code1 := codeOf nc1 n
    count1 := nodes1.length
    net_code2 := codeOf nc2 n
    count2 := nodes2.length
    mismatch := (uniqueNodes nodes1 nodes2).length != (uniqueNodes nodes2 nodes1).length }

/-- The detailed entry the comparison loop builds for one mismatched net. -/
def detailOf (nl1 nl2 : List (String × NetEntry)) (n : String) : DetailEntry :=
  let nodes1 := nodesOf nl1 n
  let nodes2 := nodesOf nl2 n
  { net_name := n
    unique_nodes1 := uniqueNodes nodes1 nodes2
    count_unique1 := (uniqueNodes nodes1 nodes2).length
    unique_nodes2 := uniqueNodes nodes2 nodes1
    count_unique2 := (uniqueNodes nodes2 nodes1).length }

/-- The `for net_name in all_nets` loop of `compare_netlists`: build the
results list, the detailed-mismatch list, and the matched and mismatched
counters, in iteration order. -/
def compareLoop (nl1 : List (String × NetEntry)) (nc1 : List (String × String))
    (nl2 : List (String × NetEntry)) (nc2 : List (String × String)) :
    List String → List NetResult × List DetailEntry × Nat × Nat
  | [] => ([], [], 0, 0)
  | n :: ns =>
    let r := netResultOf nl1 nc1 nl2 nc2 n
    let rest := compareLoop nl1 nc1 nl2 nc2 ns
    if r.mismatch then
      (r :: rest.1, detailOf nl1 nl2 n :: rest.2.1, rest.2.2.1, rest.2.2.2 + 1)
    else
      (r :: rest.1, rest.2.1, rest.2.2.1 + 1, rest.2.2.2)

/-- `set(netlist1.keys()).union(netlist2.keys())`: the distinct net names of
both files.  Python iterates a set in unspecified order; the model picks the
canonical order produced by `dedup`, and no theorem below depends on it. -/
def allNets (nl1 nl2 : List (String × NetEntry)) : List String :=
  (nl1.map Prod.fst ++ nl2.map Prod.fst).dedup

/-- The first component of the Python sort key `(not is_mismatch, net_code1)`:
`False` (mismatch) sorts before `True` (match). -/
def resultKey (r : NetResult) : Nat :=
  if r.mismatch then 0 else 1

/-- Python string comparison: lexicographic by Unicode code point. -/
def lexLe : List Char → List Char → Bool
  | [], _ => true
  | _ :: _, [] => false
  | a :: as, b :: bs => if a.toNat = b.toNat then lexLe as bs else decide (a.toNat < b.toNat)

/-- The ordering used by `results.sort(key=lambda x: (not x[5], x[1]))`:
lexicographic on the pair (negated mismatch flag, first file's net code). -/
def resultLE (a b : NetResult) : Bool :=
  decide (resultKey a < resultKey b) ||
    (resultKey a == resultKey b && lexLe a.net_code1.data b.net_code1.data)

/-- Lines 147-180 of the source: union the net names, run the comparison loop,
and sort the results mismatches-first then by the first file's net code.
Returns `(results, detailed_mismatches, matched_count, mismatched_count)`. -/
def compareCore (nl1 : List (String × NetEntry)) (nc1 : List (String × String))
    (nl2 : List (String × NetEntry)) (nc2 : List (String × String)) :
    List NetResult × List DetailEntry × Nat × Nat :=
  let r := compareLoop nl1 nc1 nl2 nc2 (allNets nl1 nl2)
  (r.1.mergeSort resultLE, r.2.1, r.2.2.1, r.2.2.2)

/-- `compare_netlists(file1, file2)` up to the report call: parse both files
(with the outcome of each read supplied explicitly) and compare. -/
def compare_netlists (file1 file2 : String)
    (read1 read2 : Except PyErr (List String)) :
    List NetResult × List DetailEntry × Nat × Nat :=
  let p1 := parse_netlist file1 read1
  let p2 := parse_netlist file2 read2
  compareCore p1.1 p1.2.1 p2.1 p2.2.1

/-- One summary row of the report (the body of the first f-string of
`generate_html_report`, with the row index `i` counted from 1). -/
def rowHtml (i : Nat) (r : NetResult) : String :=
  "\n            <tr class=\"" ++ (if r.mismatch then "mismatch-row" else "match-row") ++
  "\">\n                <td>" ++ toString i ++
  "</td>\n                <td>" ++ r.net_name ++
  "</td>\n                <td>" ++ r.net_code1 ++
  "</td>\n                <td>" ++ toString r.count1 ++
  "</td>\n                <td>" ++ r.net_code2 ++
  "</td>\n                <td>" ++ toString r.count2 ++
  "</td>\n            </tr>\n        "

/-- The `rows += ...` loop over `enumerate(results, start=1)`. -/
def rowsAux : Nat → List NetResult → String
  | _, [] => ""
  | i, r :: rs => rowHtml i r ++ rowsAux (i + 1) rs

/-- The `rows` fragment substituted for the first placeholder. -/
def rowsFrag (results : List NetResult) : String :=
  rowsAux 1 results

/-- `"".join(f"<li>{node}</li>" for node in unique_nodes)`. -/
def liJoin (nodes : List String) : String :=
  String.join (nodes.map (fun node => "<li>" ++ node ++ "</li>"))

/-- One detailed row of the report (the body of the second f-string, with the
two categorizations recomputed from the unique node lists). -/
def detailHtml (i : Nat) (d : DetailEntry) : String :=
  let categories1 := categorize_nodes d.unique_nodes1
  let categories2 := categorize_nodes d.unique_nodes2
  "\n            <tr>\n                <td>" ++ toString i ++
  "</td>\n                <td>" ++ d.net_name ++
  "</td>\n                <td>\n                    <p>Total Nodes: " ++ toString d.count_unique1 ++
  "</p>\n                    <p>Total Capacitors: " ++ toString categories1.capacitors ++
  "</p>\n                    <p>Total Resistors: " ++ toString categories1.resistors ++
  "</p>\n                    <p>Total Others: " ++ toString categories1.others ++
  "</p>\n                    <ul>\n                        " ++ liJoin d.unique_nodes1 ++
  "\n                    </ul>\n                </td>\n                <td>\n                    <p>Total Nodes: " ++ toString d.count_unique2 ++
  "</p>\n                    <p>Total Capacitors: " ++ toString categories2.capacitors ++
  "</p>\n                    <p>Total Resistors: " ++ toString categories2.resistors ++
  "</p>\n                    <p>Total Others: " ++ toString categories2.others ++
  "</p>\n                    <ul>\n                        " ++ liJoin d.unique_nodes2 ++
  "\n                    </ul>\n                </td>\n            </tr>\n        "

/-- The `detailed_rows += ...` loop over `enumerate(detailed_mismatches, 1)`. -/
def detailsAux : Nat → List DetailEntry → String
  | _, [] => ""
  | i, d :: ds => detailHtml i d ++ detailsAux (i + 1) ds

/-- The `detailed_rows` fragment substituted for the second placeholder. -/
def detailedRowsFrag (detailed : List DetailEntry) : String :=
  detailsAux 1 detailed

/-- The `footer_info` fragment substituted for the third placeholder. -/
def footerFrag (matched_count mismatched_count : Nat) : String :=
  "\n        <tr>\n            <td colspan=\"6\">\n                <p><strong>Matched Net Codes: " ++
  toString matched_count ++
  "</strong></p>\n                <p><strong>Mismatched Net Codes: " ++
  toString mismatched_count ++
  "</strong></p>\n            </td>\n        </tr>\n    "

/-- The scan of Python's `str.replace` for a nonempty pattern `p :: ps`: move
left to right, replace each occurrence found, and continue after the replaced
text (the replacement itself is not rescanned).  The extra `fuel` argument
makes the recursion structural; every step consumes at least one character of
the scanned string, so calling with `fuel = s.length` (as `pyReplace` does)
never reaches the fuel-exhausted branch. -/
def replaceScan (p : Char) (ps rep : List Char) : Nat → List Char → List Char
  | _, [] => []
  | 0, s => s
  | fuel + 1, c :: cs =>
    if leadsWith (p :: ps) (c :: cs) then rep ++ replaceScan p ps rep fuel (cs.drop ps.length)
    else c :: replaceScan p ps rep fuel cs

/-- Python `s.replace(pat, rep)`.  The program only calls it with the three
nonempty placeholder tokens as `pat`; the empty-pattern case (where Python
would interleave `rep` everywhere) is modelled as the identity. -/
def pyReplace (s pat rep : List Char) : List Char :=
  match pat with
  | [] => s
  | p :: ps => replaceScan p ps rep s.length s

/-- `pyReplace` lifted to `String`. -/
def pyReplaceS (s pat rep : String) : String :=
  ⟨pyReplace s.data pat.data rep.data⟩

/-- The literal placeholder token `{{ rows }}`. -/
def tokRows : String := "\x7b\x7b rows \x7d\x7d"

/-- The literal placeholder token `{{ detailed_rows }}`. -/
def tokDetailed : String := "\x7b\x7b detailed_rows \x7d\x7d"

/-- The literal placeholder token `{{ footer_info }}`. -/
def tokFooter : String := "\x7b\x7b footer_info \x7d\x7d"

/-- `generate_html_report` up to the file write: build the three fragments and
substitute them with the chained `template.replace(...)` calls; the returned
string is the `html_content` written to `comparison_report.html`. -/
def generate_html_report (template : String) (results : List NetResult)
    (detailed_mismatches : List DetailEntry) (matched_count mismatched_count : Nat) : String :=
  pyReplaceS
    (pyReplaceS
      (pyReplaceS template tokRows (rowsFrag results))
      tokDetailed (detailedRowsFrag detailed_mismatches))
    tokFooter (footerFrag matched_count mismatched_count)

/-- `s` with the occurrence of `pat` at index `i` replaced by `rep`. -/
def replaceOnceAt (s pat rep : List Char) (i : Nat) : List Char :=
  s.take i ++ rep ++ s.drop (i + pat.length)

/-- `out` is the result of replacing exactly one occurrence of `pat` in `s`
by `rep` (all other text, including other occurrences of `pat`, kept). -/
def isSingleReplacement (s pat rep out : List Char) : Bool :=
  (List.range (s.length + 1)).any (fun i => subAt s pat i && out == replaceOnceAt s pat rep i)

/-- No occurrence of `pat` starts at any index `< k` of `s`. -/
def noMatchUpTo (s pat : List Char) (k : Nat) : Bool :=
  (List.range k).all (fun i => !subAt s pat i)

/-- What the `__main__` guard does: either print the usage line and call
`sys.exit(1)`, or call `compare_netlists` on the two path arguments. -/
inductive MainAction where
  | printUsageAndExit : String → Nat → MainAction
  | runCompare : String → String → MainAction
deriving DecidableEq, Repr

/-- The `if __name__ == "__main__"` block: `sys.argv` (the script name
followed by the arguments) must have length exactly 3, otherwise the usage
message is printed and the process exits with status 1 before anything is
parsed or compared. -/
def mainBlock (argv : List String) : MainAction :=
  if argv.length != 3 then
    .printUsageAndExit "Usage: python compare.py <file1.net> <file2.net>" 1
  else
    .runCompare (argv.getD 1 "") (argv.getD 2 "")

/-- A net-declaration line as it appears in an input file. -/
def netLine (code name : String) : String :=
  "(net (code \"" ++ code ++ "\") (name \"" ++ name ++ "\"))"

/-- A node-declaration line as it appears in an input file. -/
def nodeLine (ref pin : String) : String :=
  "(node (ref \"" ++ ref ++ "\") (pin \"" ++ pin ++ "\"))"

/-- A nonempty all-ASCII-digit string, as required of a net code by `(\d+)`. -/
def isDigits (s : String) : Bool :=
  !s.data.isEmpty && s.data.all Char.isDigit

/-- The string contains no `")` substring, so a non-greedy capture before a
`"\)` in one of the regexes recovers it exactly. -/
def noClose (s : String) : Bool :=
  !(containsSub closeLit s.data)

/-- The node has an extractable ref that starts with `"C"`. -/
def countsAsCapacitor (node : String) : Bool :=
  match extractRef node.data with
  | some r => leadsWith "C".data r.data
  | none => false

/-- The node has an extractable ref that starts with `"R"` (and not `"C"`). -/
def countsAsResistor (node : String) : Bool :=
  match extractRef node.data with
  | some r => !leadsWith "C".data r.data && leadsWith "R".data r.data
  | none => false

/-- The node has an extractable ref that starts with neither `"C"` nor `"R"`. -/
def countsAsOther (node : String) : Bool :=
  match extractRef node.data with
  | some r => !leadsWith "C".data r.data && !leadsWith "R".data r.data
  | none => false

theorem categorizeStep_foldl (nodes : List String) (cat : Categories) :
    nodes.foldl categorizeStep cat =
      { capacitors := cat.capacitors + nodes.countP countsAsCapacitor
        resistors := cat.resistors + nodes.countP countsAsResistor
        others := cat.others + nodes.countP countsAsOther } := by
  induction nodes generalizing cat with
  | nil => simp
  | cons n ns ih =>
    simp only [List.foldl_cons, ih, List.countP_cons]
    unfold categorizeStep countsAsCapacitor countsAsResistor countsAsOther
    cases h : extractRef n.data with
    | none => simp [h]
    | some r =>
      by_cases hC : leadsWith "C".data r.data
      · simp [h, hC]
        omega
      · by_cases hR : leadsWith "R".data r.data
        · simp [h, hC, hR]
          omega
        · simp [h, hC, hR]
          omega

/-- C8: `categorize_nodes` counts a node as a capacitor exactly when its
extracted reference designator starts with the character `"C"`, as a resistor
exactly when it starts with `"R"`, and as an other in the remaining cases in
which a ref was extracted; the check is case-sensitive and looks only at the
first character, so a node whose ref is `"CR1"` is counted as a capacitor. -/
theorem categorize_nodes_by_ref_letter (nodes : List String) :
    categorize_nodes nodes =
      { capacitors := nodes.countP countsAsCapacitor
        resistors := nodes.countP countsAsResistor
        others := nodes.countP countsAsOther } ∧
    categorize_nodes [fmtNode "CR1" "1"] =
      { capacitors := 1, resistors := 0, others := 0 } := by
  constructor
  · have h := categorizeStep_foldl nodes { capacitors := 0, resistors := 0, others := 0 }
    simpa [categorize_nodes] using h
  · decide

/-- C5: on a missing input file, `parse_netlist` reports the error and returns
the empty pair of dictionaries instead of aborting; on any other exception
raised while reading the file, the exception is likewise caught and reported
and the empty dictionaries are returned. -/
theorem parse_netlist_error_recovery (file_path e : String) :
    parse_netlist file_path (.error .fileNotFound) =
      ([], [], ["Error: File " ++ file_path ++ " not found."]) ∧
    parse_netlist file_path (.error (.other e)) =
      ([], [], ["Error: An unexpected error occurred while parsing " ++ file_path ++ " - " ++ e]) :=
  ⟨rfl, rfl⟩

/-- C9: invoked with any argument vector whose length differs from 3 (the
script name plus exactly two netlist paths), the `__main__` block prints the
usage message and exits with status 1, never reaching parsing or comparison. -/
theorem mainBlock_usage_exit (argv : List String) (h : argv.length ≠ 3) :
    mainBlock argv = .printUsageAndExit "Usage: python compare.py <file1.net> <file2.net>" 1 := by
  simp [mainBlock, h]

theorem mainBlock_usage_exit_witness :
    mainBlock ["compare.py"] = .printUsageAndExit "Usage: python compare.py <file1.net> <file2.net>" 1 :=
  mainBlock_usage_exit ["compare.py"] (by decide)

theorem compareLoop_results (nl1 : List (String × NetEntry)) (nc1 : List (String × String))
    (nl2 : List (String × NetEntry)) (nc2 : List (String × String)) (ns : List String) :
    (compareLoop nl1 nc1 nl2 nc2 ns).1 = ns.map (netResultOf nl1 nc1 nl2 nc2) := by
  induction ns with
  | nil => rfl
  | cons n ns ih =>
    simp only [compareLoop]
    by_cases h : (netResultOf nl1 nc1 nl2 nc2 n).mismatch <;> simp [h, ih]

theorem compareLoop_counts (nl1 : List (String × NetEntry)) (nc1 : List (String × String))
    (nl2 : List (String × NetEntry)) (nc2 : List (String × String)) (ns : List String) :
    (compareLoop nl1 nc1 nl2 nc2 ns).2.2.1 + (compareLoop nl1 nc1 nl2 nc2 ns).2.2.2 = ns.length ∧
    (compareLoop nl1 nc1 nl2 nc2 ns).2.1.length = (compareLoop nl1 nc1 nl2 nc2 ns).2.2.2 := by
  induction ns with
  | nil => exact ⟨rfl, rfl⟩
  | cons n ns ih =>
    simp only [compareLoop]
    by_cases h : (netResultOf nl1 nc1 nl2 nc2 n).mismatch <;>
      simp [h, List.length_cons] <;> omega

/-- C10: for every pair of parsed netlists, the matched and mismatched
counters sum to the number of distinct net names in the union of the two
dictionaries, which is also the length of the results list; the detailed
mismatch list has exactly `mismatched_count` entries; and the iterated name
list is duplicate-free and contains exactly the names of both sides. -/
theorem compare_counts_invariant (nl1 : List (String × NetEntry)) (nc1 : List (String × String))
    (nl2 : List (String × NetEntry)) (nc2 : List (String × String)) :
    (compareCore nl1 nc1 nl2 nc2).1.length = (allNets nl1 nl2).length ∧
    (compareCore nl1 nc1 nl2 nc2).2.2.1 + (compareCore nl1 nc1 nl2 nc2).2.2.2 =
      (compareCore nl1 nc1 nl2 nc2).1.length ∧
    (compareCore nl1 nc1 nl2 nc2).2.1.length = (compareCore nl1 nc1 nl2 nc2).2.2.2 ∧
    (allNets nl1 nl2).Nodup ∧
    (∀ x, x ∈ allNets nl1 nl2 ↔ x ∈ nl1.map Prod.fst ∨ x ∈ nl2.map Prod.fst) := by
  have hres := compareLoop_results nl1 nc1 nl2 nc2 (allNets nl1 nl2)
  have hcnt := compareLoop_counts nl1 nc1 nl2 nc2 (allNets nl1 nl2)
  have hlen : (compareCore nl1 nc1 nl2 nc2).1.length = (allNets nl1 nl2).length := by
    simp [compareCore, List.length_mergeSort, hres]
  refine ⟨hlen, ?_, ?_, List.nodup_dedup _, ?_⟩
  · have : (compareCore nl1 nc1 nl2 nc2).2.2.1 = (compareLoop nl1 nc1 nl2 nc2 (allNets nl1 nl2)).2.2.1 := rfl
    have h2 : (compareCore nl1 nc1 nl2 nc2).2.2.2 = (compareLoop nl1 nc1 nl2 nc2 (allNets nl1 nl2)).2.2.2 := rfl
    rw [this, h2, hlen, hcnt.1]
  · exact hcnt.2
  · intro x
    simp [allNets, List.mem_dedup]

theorem uniqueNodes_spec (xs ys : List String) (x : String) :
    (uniqueNodes xs ys).Sublist xs ∧
    (x ∈ uniqueNodes xs ys ↔ x ∈ xs ∧ x ∉ ys) ∧
    ((uniqueNodes xs ys).count x = if x ∈ ys then 0 else xs.count x) := by
  refine ⟨List.filter_sublist xs, ?_, ?_⟩
  · simp [uniqueNodes, List.mem_filter, List.elem_eq_mem]
  · by_cases h : x ∈ ys
    · rw [if_pos h, List.count_eq_zero]
      simp [uniqueNodes, List.mem_filter, List.elem_eq_mem, h]
    · rw [if_neg h]
      exact List.count_filter (by simp [List.elem_eq_mem, h])

/-- C2: for every net, the unique-to-A list the comparison computes is exactly
the nodes of A, in their original order (a sublist of A's node list), whose
formatted string does not occur anywhere in B's node list, and symmetrically
for B; the removal is containment-based, so every duplicate of a node string
in A vanishes from the unique list as soon as the string occurs at all in B,
and otherwise all duplicates are kept. -/
theorem unique_nodes_containment (nl1 nl2 : List (String × NetEntry)) (n x : String) :
    (uniqueNodes (nodesOf nl1 n) (nodesOf nl2 n)).Sublist (nodesOf nl1 n) ∧
    (x ∈ uniqueNodes (nodesOf nl1 n) (nodesOf nl2 n) ↔
      x ∈ nodesOf nl1 n ∧ x ∉ nodesOf nl2 n) ∧
    ((uniqueNodes (nodesOf nl1 n) (nodesOf nl2 n)).count x =
      if x ∈ nodesOf nl2 n then 0 else (nodesOf nl1 n).count x) ∧
    (uniqueNodes (nodesOf nl2 n) (nodesOf nl1 n)).Sublist (nodesOf nl2 n) ∧
    (x ∈ uniqueNodes (nodesOf nl2 n) (nodesOf nl1 n) ↔
      x ∈ nodesOf nl2 n ∧ x ∉ nodesOf nl1 n) ∧
    ((uniqueNodes (nodesOf nl2 n) (nodesOf nl1 n)).count x =
      if x ∈ nodesOf nl1 n then 0 else (nodesOf nl2 n).count x) := by
  obtain ⟨a1, a2, a3⟩ := uniqueNodes_spec (nodesOf nl1 n) (nodesOf nl2 n) x
  obtain ⟨b1, b2, b3⟩ := uniqueNodes_spec (nodesOf nl2 n) (nodesOf nl1 n) x
  exact ⟨a1, a2, a3, b1, b2, b3⟩

theorem lexLe_trans (a b c : List Char) (h1 : lexLe a b = true) (h2 : lexLe b c = true) :
    lexLe a c = true := by
  induction a generalizing b c with
  | nil => rfl
  | cons x xs ih =>
    cases b with
    | nil => simp [lexLe] at h1
    | cons y ys =>
      cases c with
      | nil => simp [lexLe] at h2
      | cons z zs =>
        simp only [lexLe] at h1 h2 ⊢
        by_cases hxy : x.toNat = y.toNat <;> by_cases hyz : y.toNat = z.toNat
        · rw [if_pos hxy] at h1
          rw [if_pos hyz] at h2
          rw [if_pos (hxy.trans hyz)]
          exact ih ys zs h1 h2
        · rw [if_pos hxy] at h1
          rw [if_neg hyz] at h2
          have hz : ¬ x.toNat = z.toNat := by
            simp at h2; omega
          rw [if_neg hz]
          simp at h2 ⊢; omega
        · rw [if_neg hxy] at h1
          rw [if_pos hyz] at h2
          have hz : ¬ x.toNat = z.toNat := by
            simp at h1; omega
          rw [if_neg hz]
          simp at h1 ⊢; omega
        · rw [if_neg hxy] at h1
          rw [if_neg hyz] at h2
          have hz : ¬ x.toNat = z.toNat := by
            simp at h1 h2; omega
          rw [if_neg hz]
          simp at h1 h2 ⊢; omega

theorem lexLe_total (a b : List Char) : (lexLe a b || lexLe b a) = true := by
  induction a generalizing b with
  | nil => simp [lexLe]
  | cons x xs ih =>
    cases b with
    | nil => simp [lexLe]
    | cons y ys =>
      simp only [lexLe]
      by_cases hxy : x.toNat = y.toNat
      · rw [if_pos hxy, if_pos hxy.symm]
        exact ih ys
      · rw [if_neg hxy, if_neg (fun h => hxy h.symm)]
        simp; omega

theorem resultLE_trans (a b c : NetResult) (h1 : resultLE a b = true) (h2 : resultLE b c = true) :
    resultLE a c = true := by
  simp only [resultLE, Bool.or_eq_true, Bool.and_eq_true, decide_eq_true_eq, beq_iff_eq] at h1 h2 ⊢
  rcases h1 with h1 | ⟨h1k, h1l⟩ <;> rcases h2 with h2 | ⟨h2k, h2l⟩
  · left; omega
  · left; omega
  · left; omega
  · right; exact ⟨h1k.trans h2k, lexLe_trans _ _ _ h1l h2l⟩

theorem resultLE_total (a b : NetResult) : (resultLE a b || resultLE b a) = true := by
  simp only [resultLE, Bool.or_eq_true, Bool.and_eq_true, decide_eq_true_eq, beq_iff_eq]
  by_cases hk : resultKey a = resultKey b
  · have := lexLe_total a.net_code1.data b.net_code1.data
    simp only [Bool.or_eq_true] at this
    rcases this with h | h
    · exact Or.inl (Or.inr ⟨hk, h⟩)
    · exact Or.inr (Or.inr ⟨hk.symm, h⟩)
  · rcases Nat.lt_or_ge (resultKey a) (resultKey b) with h | h
    · exact Or.inl (Or.inl h)
    · exact Or.inr (Or.inl (by omega))

/-- C4: in the sorted results list, a later entry is never "more mismatched"
than an earlier one (so every mismatched net precedes every matched net), and
two entries of the same group appear in non-decreasing code-point-lexicographic
order of the first file's net code string (the `"N/A"` placeholder is compared
as an ordinary string). -/
theorem results_sorted_mismatches_first (nl1 : List (String × NetEntry))
    (nc1 : List (String × String)) (nl2 : List (String × NetEntry))
    (nc2 : List (String × String)) :
    List.Pairwise
      (fun a b => ((!b.mismatch || a.mismatch) &&
        ((a.mismatch != b.mismatch) || lexLe a.net_code1.data b.net_code1.data)) = true)
      (compareCore nl1 nc1 nl2 nc2).1 := by
  have hs := List.sorted_mergeSort resultLE_trans resultLE_total
    (compareLoop nl1 nc1 nl2 nc2 (allNets nl1 nl2)).1
  have hcore : (compareCore nl1 nc1 nl2 nc2).1 =
      (compareLoop nl1 nc1 nl2 nc2 (allNets nl1 nl2)).1.mergeSort resultLE := rfl
  rw [hcore]
  refine List.Pairwise.imp ?_ hs
  intro a b hab
  by_cases ha : a.mismatch <;> by_cases hb : b.mismatch <;>
    simp_all [resultLE, resultKey]

/-- C1: every net name in the union of the two parsed netlists produces a row
in the final results list, and that row is flagged mismatched exactly when the
number of nodes unique to side A differs from the number unique to side B; in
particular a net whose two node lists share no string but have equal length is
classified matched. -/
theorem mismatch_iff_unique_count_differs (nl1 : List (String × NetEntry))
    (nc1 : List (String × String)) (nl2 : List (String × NetEntry))
    (nc2 : List (String × String)) (n : String) (h : n ∈ allNets nl1 nl2) :
    netResultOf nl1 nc1 nl2 nc2 n ∈ (compareCore nl1 nc1 nl2 nc2).1 ∧
    ((netResultOf nl1 nc1 nl2 nc2 n).mismatch = true ↔
      (uniqueNodes (nodesOf nl1 n) (nodesOf nl2 n)).length ≠
        (uniqueNodes (nodesOf nl2 n) (nodesOf nl1 n)).length) ∧
    ((∀ x ∈ nodesOf nl1 n, x ∉ nodesOf nl2 n) →
      (nodesOf nl1 n).length = (nodesOf nl2 n).length →
      (netResultOf nl1 nc1 nl2 nc2 n).mismatch = false) := by
  refine ⟨?_, ?_, ?_⟩
  · have hperm := List.mergeSort_perm (compareLoop nl1 nc1 nl2 nc2 (allNets nl1 nl2)).1 resultLE
    have hcore : (compareCore nl1 nc1 nl2 nc2).1 =
        (compareLoop nl1 nc1 nl2 nc2 (allNets nl1 nl2)).1.mergeSort resultLE := rfl
    rw [hcore, hperm.mem_iff, compareLoop_results]
    exact List.mem_map_of_mem _ h
  · simp [netResultOf, bne_iff_ne]
  · intro hdisj hlen
    have h1 : uniqueNodes (nodesOf nl1 n) (nodesOf nl2 n) = nodesOf nl1 n := by
      apply List.filter_eq_self.mpr
      intro a ha
      simp [List.elem_eq_mem, hdisj a ha]
    have h2 : uniqueNodes (nodesOf nl2 n) (nodesOf nl1 n) = nodesOf nl2 n := by
      apply List.filter_eq_self.mpr
      intro a ha
      have : a ∉ nodesOf nl1 n := fun hx => hdisj a hx ha
      simp [List.elem_eq_mem, this]
    simp [netResultOf, h1, h2, hlen]

theorem mismatch_iff_unique_count_differs_witness :
    netResultOf [("GND", ⟨"1", ["a", "b"]⟩)] [("GND", "1")]
        [("GND", ⟨"2", ["c", "d"]⟩)] [("GND", "2")] "GND" ∈
      (compareCore [("GND", ⟨"1", ["a", "b"]⟩)] [("GND", "1")]
        [("GND", ⟨"2", ["c", "d"]⟩)] [("GND", "2")]).1 ∧
    (netResultOf [("GND", ⟨"1", ["a", "b"]⟩)] [("GND", "1")]
        [("GND", ⟨"2", ["c", "d"]⟩)] [("GND", "2")] "GND").mismatch = false := by
  have h := mismatch_iff_unique_count_differs [("GND", ⟨"1", ["a", "b"]⟩)] [("GND", "1")]
    [("GND", ⟨"2", ["c", "d"]⟩)] [("GND", "2")] "GND" (by decide)
  exact ⟨h.1, h.2.2 (by decide) (by decide)⟩

/-- C3: a net present only in the second parsed netlist is reported with
`net_code1 = "N/A"` and `count1 = 0`, its unique-node list on the absent side
is empty while the present side's unique list is the full node list (so it has
exactly N entries when the net has N nodes), and the net is flagged mismatched
exactly when N > 0; symmetrically for a net present only in the first netlist. -/
theorem single_sided_net_reporting (nl1 : List (String × NetEntry))
    (nc1 : List (String × String)) (nl2 : List (String × NetEntry))
    (nc2 : List (String × String)) (n m : String) (e f : NetEntry)
    (h1 : lookupMap nl1 n = none) (h2 : lookupMap nc1 n = none)
    (h3 : lookupMap nl2 n = some e)
    (h4 : lookupMap nl2 m = none) (h5 : lookupMap nc2 m = none)
    (h6 : lookupMap nl1 m = some f) :
    (netResultOf nl1 nc1 nl2 nc2 n).net_code1 = "N/A" ∧
    (netResultOf nl1 nc1 nl2 nc2 n).count1 = 0 ∧
    uniqueNodes (nodesOf nl1 n) (nodesOf nl2 n) = [] ∧
    uniqueNodes (nodesOf nl2 n) (nodesOf nl1 n) = e.nodes ∧
    ((netResultOf nl1 nc1 nl2 nc2 n).mismatch = true ↔ 0 < e.nodes.length) ∧
    (netResultOf nl1 nc1 nl2 nc2 m).net_code2 = "N/A" ∧
    (netResultOf nl1 nc1 nl2 nc2 m).count2 = 0 ∧
    uniqueNodes (nodesOf nl2 m) (nodesOf nl1 m) = [] ∧
    uniqueNodes (nodesOf nl1 m) (nodesOf nl2 m) = f.nodes ∧
    ((netResultOf nl1 nc1 nl2 nc2 m).mismatch = true ↔ 0 < f.nodes.length) := by
  have hn1 : nodesOf nl1 n = [] := by simp [nodesOf, h1]
  have hn2 : nodesOf nl2 n = e.nodes := by simp [nodesOf, h3]
  have hm2 : nodesOf nl2 m = [] := by simp [nodesOf, h4]
  have hm1 : nodesOf nl1 m = f.nodes := by simp [nodesOf, h6]
  have hu1 : uniqueNodes (nodesOf nl1 n) (nodesOf nl2 n) = [] := by
    rw [hn1]; rfl
  have hu2 : uniqueNodes (nodesOf nl2 n) (nodesOf nl1 n) = e.nodes := by
    rw [hn1, hn2]
    apply List.filter_eq_self.mpr
    intro a _
    rfl
  have hv2 : uniqueNodes (nodesOf nl2 m) (nodesOf nl1 m) = [] := by
    rw [hm2]; rfl
  have hv1 : uniqueNodes (nodesOf nl1 m) (nodesOf nl2 m) = f.nodes := by
    rw [hm1, hm2]
    apply List.filter_eq_self.mpr
    intro a _
    rfl
  refine ⟨?_, ?_, hu1, hu2, ?_, ?_, ?_, hv2, hv1, ?_⟩
  · simp [netResultOf, codeOf, h2]
  · simp [netResultOf, hn1]
  · have hmis : (netResultOf nl1 nc1 nl2 nc2 n).mismatch
        = ((uniqueNodes (nodesOf nl1 n) (nodesOf nl2 n)).length
            != (uniqueNodes (nodesOf nl2 n) (nodesOf nl1 n)).length) := rfl
    rw [hmis, hu1, hu2]
    simp only [List.length_nil, bne_iff_ne, ne_eq]
    omega
  · simp [netResultOf, codeOf, h5]
  · simp [netResultOf, hm2]
  · have hmis : (netResultOf nl1 nc1 nl2 nc2 m).mismatch
        = ((uniqueNodes (nodesOf nl1 m) (nodesOf nl2 m)).length
            != (uniqueNodes (nodesOf nl2 m) (nodesOf nl1 m)).length) := rfl
    rw [hmis, hv1, hv2]
    simp only [List.length_nil, bne_iff_ne, ne_eq]
    omega

theorem single_sided_net_reporting_witness :
    (netResultOf [("A", ⟨"1", ["x"]⟩)] [("A", "1")]
        [("B", ⟨"2", ["y", "z"]⟩)] [("B", "2")] "B").net_code1 = "N/A" ∧
    (netResultOf [("A", ⟨"1", ["x"]⟩)] [("A", "1")]
        [("B", ⟨"2", ["y", "z"]⟩)] [("B", "2")] "B").count1 = 0 ∧
    ((netResultOf [("A", ⟨"1", ["x"]⟩)] [("A", "1")]
        [("B", ⟨"2", ["y", "z"]⟩)] [("B", "2")] "B").mismatch = true ↔
      0 < (NetEntry.mk "2" ["y", "z"]).nodes.length) ∧
    (netResultOf [("A", ⟨"1", ["x"]⟩)] [("A", "1")]
        [("B", ⟨"2", ["y", "z"]⟩)] [("B", "2")] "A").net_code2 = "N/A" := by
  have h := single_sided_net_reporting [("A", ⟨"1", ["x"]⟩)] [("A", "1")]
    [("B", ⟨"2", ["y", "z"]⟩)] [("B", "2")] "B" "A" ⟨"2", ["y", "z"]⟩ ⟨"1", ["x"]⟩
    (by decide) (by decide) (by decide) (by decide) (by decide) (by decide)
  exact ⟨h.1, h.2.1, h.2.2.2.2.1, h.2.2.2.2.2.1⟩

theorem leadsWith_append (p s : List Char) : leadsWith p (p ++ s) = true := by
  induction p with
  | nil => rfl
  | cons x xs ih => simp [leadsWith, ih]

theorem containsSub_cons_false {pat : List Char} {c : Char} {cs : List Char}
    (h : containsSub pat (c :: cs) = false) :
    leadsWith pat (c :: cs) = false ∧ containsSub pat cs = false := by
  rw [containsSub] at h
  exact ⟨by cases hl : leadsWith pat (c :: cs) <;> simp [hl] at h ⊢,
         by cases hc : containsSub pat cs <;> simp [hc] at h ⊢⟩

theorem containsSub_append_right (pat s t : List Char) (h : containsSub pat t = true) :
    containsSub pat (s ++ t) = true := by
  induction s with
  | nil => simpa using h
  | cons c cs ih => rw [List.cons_append, containsSub, ih, Bool.or_true]

theorem leadsWith_of_leadsWith_append {p q s : List Char}
    (h : leadsWith (p ++ q) s = true) : leadsWith p s = true := by
  induction p generalizing s with
  | nil => rfl
  | cons x xs ih =>
    cases s with
    | nil => simp [leadsWith] at h
    | cons c cs =>
      rw [List.cons_append, leadsWith, Bool.and_eq_true] at h
      rw [leadsWith, Bool.and_eq_true]
      exact ⟨h.1, ih h.2⟩

theorem leadsWith_pair_irrelevant (a b c d : Char) (rest rest' : List Char) :
    leadsWith [a, b] (c :: d :: rest) = leadsWith [a, b] (c :: d :: rest') := by
  simp [leadsWith]

theorem splitFirst_close (nm tail' : List Char) (h : containsSub closeLit nm = false) :
    splitFirst closeLit (nm ++ ('"' :: ')' :: tail')) = some (nm, tail') := by
  induction nm with
  | nil =>
    rw [List.nil_append, splitFirst,
      if_pos (show leadsWith closeLit ('"' :: ')' :: tail') = true from
        leadsWith_append closeLit tail')]
    rfl
  | cons c cs ih =>
    obtain ⟨h1, h2⟩ := containsSub_cons_false h
    rw [List.cons_append, splitFirst, if_neg, ih h2]
    · rfl
    · cases cs with
      | nil =>
        simp [closeLit, leadsWith]
      | cons d cs' =>
        rw [List.cons_append]
        intro hcon
        rw [show closeLit = ['"', ')'] from rfl] at hcon h1
        rw [leadsWith_pair_irrelevant '"' ')' c d (cs' ++ '"' :: ')' :: tail') cs'] at hcon
        rw [hcon] at h1
        exact Bool.true_eq_false.mp h1

theorem takeWhile_digits (cd : List Char) (tail' : List Char)
    (hall : cd.all Char.isDigit = true) :
    (cd ++ '"' :: tail').takeWhile Char.isDigit = cd := by
  induction cd with
  | nil =>
    rw [List.nil_append, List.takeWhile_cons, if_neg]
    intro h
    exact absurd h (by decide)
  | cons c cs ih =>
    rw [List.all_cons, Bool.and_eq_true] at hall
    rw [List.cons_append, List.takeWhile_cons, if_pos hall.1, ih hall.2]

theorem matchNetDecl_netLine (code name : String)
    (hc : isDigits code = true) (hn : noClose name = true) :
    matchNetDecl (netLine code name).data = some (code, name) := by
  have hdata : (netLine code name).data =
      netLit ++ (code.data ++ (nameLit ++ (name.data ++ ['"', ')', ')']))) := by
    simp [netLine, String.data_append, netLit, nameLit]
  rw [isDigits, Bool.and_eq_true] at hc
  have hni : code.data.isEmpty = false := by simpa using hc.1
  have h1 : stripLead netLit
      (netLit ++ (code.data ++ (nameLit ++ (name.data ++ ['"', ')', ')'])))) =
      some (code.data ++ (nameLit ++ (name.data ++ ['"', ')', ')']))) := by
    rw [stripLead, if_pos (leadsWith_append _ _), List.drop_left]
  have htake : (code.data ++ (nameLit ++ (name.data ++ ['"', ')', ')']))).takeWhile Char.isDigit
      = code.data := by
    rw [show nameLit = '"' :: nameLit.tail from rfl, List.cons_append]
    exact takeWhile_digits code.data _ hc.2
  have hdrop : (code.data ++ (nameLit ++ (name.data ++ ['"', ')', ')']))).drop code.data.length
      = nameLit ++ (name.data ++ ['"', ')', ')']) := List.drop_left _ _
  have h2 : stripLead nameLit (nameLit ++ (name.data ++ ['"', ')', ')'])) =
      some (name.data ++ ['"', ')', ')']) := by
    rw [stripLead, if_pos (leadsWith_append _ _), List.drop_left]
  have hsplit : splitFirst closeLit (name.data ++ ['"', ')', ')']) =
      some (name.data, [')']) := by
    rw [show name.data ++ ['"', ')', ')'] = name.data ++ ('"' :: ')' :: [')']) from rfl]
    apply splitFirst_close
    simpa [noClose] using hn
  simp only [matchNetDecl, hdata, h1, htake, hdrop, h2, hsplit, hni, Bool.false_eq_true,
    if_false, Option.map_some]
  rfl

theorem findPinSplit_split (r tail2 : List Char)
    (hr : containsSub closeLit r = false)
    (hvia : containsSub closeLit tail2 = true) :
    findPinSplit (r ++ (pinLit ++ tail2)) = some (r, tail2) := by
  induction r with
  | nil =>
    rw [List.nil_append]
    rw [show pinLit ++ tail2 = '"' :: (pinLit.tail ++ tail2) from rfl]
    rw [findPinSplit, if_pos]
    · rw [show pinLit.length = 9 from rfl]
      rw [show ('"' :: (pinLit.tail ++ tail2)).drop 9 = (pinLit.tail ++ tail2).drop 8 from rfl]
      rw [show pinLit.tail = "\") (pin \"".data.tail from rfl]
      simp
    · rw [Bool.and_eq_true]
      constructor
      · exact leadsWith_append pinLit tail2
      · rw [show pinLit.length = 9 from rfl]
        rw [show ('"' :: (pinLit.tail ++ tail2)).drop 9 = (pinLit.tail ++ tail2).drop 8 from rfl]
        rw [show pinLit.tail = "\") (pin \"".data.tail from rfl]
        simpa using hvia
  | cons c cs ih =>
    obtain ⟨h1, h2⟩ := containsSub_cons_false hr
    rw [List.cons_append, findPinSplit, if_neg, ih h2]
    · rfl
    · rw [Bool.and_eq_true]
      rintro ⟨hlead, -⟩
      have hclose : leadsWith closeLit (c :: (cs ++ (pinLit ++ tail2))) = true :=
        leadsWith_of_leadsWith_append
          (p := closeLit) (q := " (pin \"".data) (by exact hlead)
      cases cs with
      | nil =>
        rw [List.nil_append] at hclose
        rw [show pinLit ++ tail2 = '"' :: (pinLit.tail ++ tail2) from rfl] at hclose
        rw [show closeLit = ['"', ')'] from rfl] at hclose
        simp [leadsWith] at hclose
      | cons d cs' =>
        rw [List.cons_append] at hclose
        rw [show closeLit = ['"', ')'] from rfl] at hclose h1
        rw [leadsWith_pair_irrelevant '"' ')' c d (cs' ++ (pinLit ++ tail2)) cs'] at hclose
        rw [hclose] at h1
        exact Bool.true_eq_false.mp h1

theorem matchNodeDecl_nodeLine (ref pin : String)
    (h1 : noClose ref = true) (h2 : noClose pin = true) :
    matchNodeDecl (nodeLine ref pin).data = some (ref, pin) := by
  have hdata : (nodeLine ref pin).data =
      nodeLit ++ (ref.data ++ (pinLit ++ (pin.data ++ ['"', ')', ')']))) := by
    simp [nodeLine, String.data_append, nodeLit, pinLit]
  have hstrip : stripLead nodeLit
      (nodeLit ++ (ref.data ++ (pinLit ++ (pin.data ++ ['"', ')', ')'])))) =
      some (ref.data ++ (pinLit ++ (pin.data ++ ['"', ')', ')']))) := by
    rw [stripLead, if_pos (leadsWith_append _ _), List.drop_left]
  have hvia : containsSub closeLit (pin.data ++ ['"', ')', ')']) = true := by
    apply containsSub_append_right
    decide
  have hfind : findPinSplit (ref.data ++ (pinLit ++ (pin.data ++ ['"', ')', ')']))) =
      some (ref.data, pin.data ++ ['"', ')', ')']) :=
    findPinSplit_split ref.data (pin.data ++ ['"', ')', ')'])
      (by simpa [noClose] using h1) hvia
  have hsplit : splitFirst closeLit (pin.data ++ ['"', ')', ')']) =
      some (pin.data, [')']) := by
    rw [show pin.data ++ ['"', ')', ')'] = pin.data ++ ('"' :: ')' :: [')']) from rfl]
    exact splitFirst_close pin.data [')'] (by simpa [noClose] using h2)
  simp only [matchNodeDecl, hdata, hstrip, hfind, hsplit, Option.map_some]
  rfl

theorem pyStrip_eq_self (cs : List Char)
    (h1 : ∀ c, cs.head? = some c → c.isWhitespace = false)
    (h2 : ∀ c, cs.getLast? = some c → c.isWhitespace = false) :
    pyStrip cs = cs := by
  unfold pyStrip
  have hd : cs.dropWhile Char.isWhitespace = cs := by
    cases cs with
    | nil => rfl
    | cons x xs => rw [List.dropWhile_cons, if_neg (by simp [h1 x rfl])]
  rw [hd]
  have hrev : cs.reverse.dropWhile Char.isWhitespace = cs.reverse := by
    cases hr : cs.reverse with
    | nil => rfl
    | cons y ys =>
      have hy : cs.getLast? = some y := by
        rw [← List.head?_reverse, hr]
        rfl
      rw [List.dropWhile_cons, if_neg (by simp [h2 y hy])]
  rw [hrev, List.reverse_reverse]

theorem netLine_data (code name : String) :
    (netLine code name).data =
      netLit ++ (code.data ++ (nameLit ++ (name.data ++ ['"', ')', ')']))) := by
  simp [netLine, String.data_append, netLit, nameLit]

theorem nodeLine_data (ref pin : String) :
    (nodeLine ref pin).data =
      nodeLit ++ (ref.data ++ (pinLit ++ (pin.data ++ ['"', ')', ')']))) := by
  simp [nodeLine, String.data_append, nodeLit, pinLit]

theorem pyStrip_netLine (code name : String) :
    pyStrip (netLine code name).data = (netLine code name).data := by
  have hdata := netLine_data code name
  apply pyStrip_eq_self
  · intro c hc2
    rw [hdata] at hc2
    rw [show (netLit ++ (code.data ++ (nameLit ++ (name.data ++ ['"', ')', ')'])))).head?
        = some '(' from rfl] at hc2
    rw [← Option.some.inj hc2]
    rfl
  · intro c hc2
    rw [hdata, ← List.head?_reverse] at hc2
    simp [List.reverse_append] at hc2
    rw [← hc2]
    rfl

theorem pyStrip_nodeLine (ref pin : String) :
    pyStrip (nodeLine ref pin).data = (nodeLine ref pin).data := by
  have hdata := nodeLine_data ref pin
  apply pyStrip_eq_self
  · intro c hc2
    rw [hdata] at hc2
    rw [show (nodeLit ++ (ref.data ++ (pinLit ++ (pin.data ++ ['"', ')', ')'])))).head?
        = some '(' from rfl] at hc2
    rw [← Option.some.inj hc2]
    rfl
  · intro c hc2
    rw [hdata, ← List.head?_reverse] at hc2
    simp [List.reverse_append] at hc2
    rw [← hc2]
    rfl

theorem stepLine_netLine (st : PState) (code name : String)
    (hin : st.in_nets = true) (hc : isDigits code = true) (hn : noClose name = true) :
    stepLine st (netLine code name) =
      { st with connections := updateMap st.connections name { code := code, nodes := [] },
                net_codes := updateMap st.net_codes name code,
                net_name := some name, net_code := some code } := by
  have hdata := netLine_data code name
  have bNets : leadsWith "(nets".data (netLine code name).data = false := by rw [hdata]; rfl
  have bComp : leadsWith "(components".data (netLine code name).data = false := by
    rw [hdata]; rfl
  have bNet : leadsWith "(net".data (netLine code name).data = true := by rw [hdata]; rfl
  simp only [stepLine, pyStrip_netLine, bNets, bComp, bNet, hin, Bool.false_eq_true,
    if_false, Bool.and_self, if_true, matchNetDecl_netLine code name hc hn]

theorem stepLine_nodeLine (st : PState) (nm ref pin : String)
    (hin : st.in_nets = true) (hnm : st.net_name = some nm) (hne : (nm == "") = false)
    (h1 : noClose ref = true) (h2 : noClose pin = true) :
    stepLine st (nodeLine ref pin) =
      { st with connections := appendNode st.connections nm (fmtNode ref pin) } := by
  have hdata := nodeLine_data ref pin
  have bNets : leadsWith "(nets".data (nodeLine ref pin).data = false := by rw [hdata]; rfl
  have bComp : leadsWith "(components".data (nodeLine ref pin).data = false := by
    rw [hdata]; rfl
  have bNet : leadsWith "(net".data (nodeLine ref pin).data = false := by rw [hdata]; rfl
  have bNode : leadsWith "(node".data (nodeLine ref pin).data = true := by rw [hdata]; rfl
  simp only [stepLine, nodeStep, pyStrip_nodeLine, bNets, bComp, bNet, bNode, hin, hnm, hne,
    Bool.false_eq_true, if_false, Bool.and_false, Bool.and_self, if_true,
    matchNodeDecl_nodeLine ref pin h1 h2]

theorem updateMap_same_key {α : Type} (k : String) (v w : α) (rest : List (String × α)) :
    updateMap ((k, v) :: rest) k w = (k, w) :: rest := by
  simp [updateMap]

theorem foldl_nodeLines (nodes : List (String × String)) (nm : String) :
    ∀ st : PState, st.in_nets = true → st.net_name = some nm → (nm == "") = false →
    nodes.all (fun rp => noClose rp.1 && noClose rp.2) = true →
    (nodes.map (fun rp => nodeLine rp.1 rp.2)).foldl stepLine st =
      { st with connections :=
          nodes.foldl (fun m rp => appendNode m nm (fmtNode rp.1 rp.2)) st.connections } := by
  induction nodes with
  | nil =>
    intro st _ _ _ _
    rfl
  | cons rp rest ih =>
    intro st hin hnm hne hok
    rw [List.all_cons, Bool.and_eq_true] at hok
    obtain ⟨hok1, hok2⟩ := hok
    rw [Bool.and_eq_true] at hok1
    rw [List.map_cons, List.foldl_cons, stepLine_nodeLine st nm rp.1 rp.2 hin hnm hne hok1.1 hok1.2]
    exact ih _ hin hnm hne hok2

theorem foldl_appendNode_single (nm : String) (nodes : List (String × String)) :
    ∀ e : NetEntry,
    nodes.foldl (fun m rp => appendNode m nm (fmtNode rp.1 rp.2)) [(nm, e)] =
      [(nm, { e with nodes := e.nodes ++ nodes.map (fun rp => fmtNode rp.1 rp.2) })] := by
  induction nodes with
  | nil =>
    intro e
    simp
  | cons rp rest ih =>
    intro e
    rw [List.foldl_cons]
    have h1 : appendNode [(nm, e)] nm (fmtNode rp.1 rp.2) =
        [(nm, { e with nodes := e.nodes ++ [fmtNode rp.1 rp.2] })] := by
      simp [appendNode]
    rw [h1, ih]
    simp

/-- C6 amended: in a nets section containing two net declarations with the
same (non-empty) net name, the dictionary entry is overwritten by the last
occurrence — its code is the second code and its node list is reset — and the
node lines that follow the second declaration accumulate onto that last
occurrence, the earlier occurrence's nodes being discarded; a net followed by
zero node lines keeps an empty node list (take `nodesB = []`).  (The non-empty
name proviso is forced by the `if net_name:` truthiness test of the source:
with the empty string as net name, node lines are dropped entirely.) -/
theorem parse_duplicate_net_last_wins (path c1 c2 nm : String)
    (nodesA nodesB : List (String × String))
    (hnm : nm ≠ "") (hc1 : isDigits c1 = true) (hc2 : isDigits c2 = true)
    (hn : noClose nm = true)
    (hA : nodesA.all (fun rp => noClose rp.1 && noClose rp.2) = true)
    (hB : nodesB.all (fun rp => noClose rp.1 && noClose rp.2) = true) :
    parse_netlist path (.ok ("(nets" :: netLine c1 nm ::
        ((nodesA.map fun rp => nodeLine rp.1 rp.2) ++
          netLine c2 nm :: (nodesB.map fun rp => nodeLine rp.1 rp.2)))) =
      ([(nm, { code := c2, nodes := nodesB.map fun rp => fmtNode rp.1 rp.2 })],
       [(nm, c2)], []) := by
  have hne : (nm == "") = false := by simp [hnm]
  have s1 : stepLine initPState "(nets" =
      { connections := [], net_codes := [], net_name := none, net_code := none,
        in_nets := true } := rfl
  have s2 : stepLine
      { connections := [], net_codes := [], net_name := none, net_code := none,
        in_nets := true } (netLine c1 nm) =
      { connections := [(nm, NetEntry.mk c1 [])], net_codes := [(nm, c1)],
        net_name := some nm, net_code := some c1, in_nets := true } :=
    stepLine_netLine _ c1 nm rfl hc1 hn
  have s3 : (nodesA.map fun rp => nodeLine rp.1 rp.2).foldl stepLine
      { connections := [(nm, NetEntry.mk c1 [])], net_codes := [(nm, c1)],
        net_name := some nm, net_code := some c1, in_nets := true } =
      { connections := nodesA.foldl
          (fun m rp => appendNode m nm (fmtNode rp.1 rp.2)) [(nm, NetEntry.mk c1 [])],
        net_codes := [(nm, c1)], net_name := some nm, net_code := some c1,
        in_nets := true } :=
    foldl_nodeLines nodesA nm _ rfl rfl hne hA
  have s4 : nodesA.foldl (fun m rp => appendNode m nm (fmtNode rp.1 rp.2))
      [(nm, NetEntry.mk c1 [])] =
      [(nm, NetEntry.mk c1 (nodesA.map fun rp => fmtNode rp.1 rp.2))] :=
    foldl_appendNode_single nm nodesA (NetEntry.mk c1 [])
  have s5 : stepLine
      { connections := [(nm, NetEntry.mk c1 (nodesA.map fun rp => fmtNode rp.1 rp.2))],
        net_codes := [(nm, c1)], net_name := some nm, net_code := some c1,
        in_nets := true } (netLine c2 nm) =
      { connections := [(nm, NetEntry.mk c2 [])], net_codes := [(nm, c2)],
        net_name := some nm, net_code := some c2, in_nets := true } := by
    rw [stepLine_netLine _ c2 nm rfl hc2 hn]
    simp [updateMap_same_key]
  have s6 : (nodesB.map fun rp => nodeLine rp.1 rp.2).foldl stepLine
      { connections := [(nm, NetEntry.mk c2 [])], net_codes := [(nm, c2)],
        net_name := some nm, net_code := some c2, in_nets := true } =
      { connections := nodesB.foldl
          (fun m rp => appendNode m nm (fmtNode rp.1 rp.2)) [(nm, NetEntry.mk c2 [])],
        net_codes := [(nm, c2)], net_name := some nm, net_code := some c2,
        in_nets := true } :=
    foldl_nodeLines nodesB nm _ rfl rfl hne hB
  have s7 : nodesB.foldl (fun m rp => appendNode m nm (fmtNode rp.1 rp.2))
      [(nm, NetEntry.mk c2 [])] =
      [(nm, NetEntry.mk c2 (nodesB.map fun rp => fmtNode rp.1 rp.2))] :=
    foldl_appendNode_single nm nodesB (NetEntry.mk c2 [])
  have hfold : ("(nets" :: netLine c1 nm ::
      ((nodesA.map fun rp => nodeLine rp.1 rp.2) ++
        netLine c2 nm :: (nodesB.map fun rp => nodeLine rp.1 rp.2))).foldl
        stepLine initPState =
      { connections := [(nm, NetEntry.mk c2 (nodesB.map fun rp => fmtNode rp.1 rp.2))],
        net_codes := [(nm, c2)], net_name := some nm, net_code := some c2,
        in_nets := true } := by
    rw [List.foldl_cons, s1, List.foldl_cons, s2, List.foldl_append, s3, s4,
      List.foldl_cons, s5, s6, s7]
  simp only [parse_netlist, hfold]

theorem parse_duplicate_net_last_wins_witness :
    parse_netlist "a.net" (.ok ("(nets" :: netLine "1" "NET" ::
        (([(("C1" : String), ("1" : String))].map fun rp => nodeLine rp.1 rp.2) ++
          netLine "2" "NET" :: (([] : List (String × String)).map fun rp => nodeLine rp.1 rp.2)))) =
      ([("NET", { code := "2", nodes := [] })], [("NET", "2")], []) := by
  have h := parse_duplicate_net_last_wins "a.net" "1" "2" "NET"
    [("C1", "1")] [] (by decide) (by decide) (by decide) (by decide) (by decide) (by decide)
  simpa using h

/-- C6 counterexample: a file whose duplicated net name is the empty string.
The empty name is falsy in Python, so `if net_name:` rejects every node line:
the last occurrence still wins (code `"2"`), but the node line that follows it
is NOT accumulated — the entry keeps an empty node list instead of
`[fmtNode "R1" "2"]` as the claim would require. -/
theorem parse_duplicate_net_empty_name_counterexample :
    parse_netlist "a.net" (.ok ["(nets", netLine "1" "", nodeLine "C1" "1",
        netLine "2" "", nodeLine "R1" "2"]) =
      ([("", { code := "2", nodes := [] })], [("", "2")], []) ∧
    parse_netlist "a.net" (.ok ["(nets", netLine "1" "", nodeLine "C1" "1",
        netLine "2" "", nodeLine "R1" "2"]) ≠
      ([("", { code := "2", nodes := [fmtNode "R1" "2"] })], [("", "2")], []) := by
  constructor
  · decide
  · decide

theorem replaceScan_no_occurrence (p : Char) (ps rep : List Char) :
    ∀ (fuel : Nat) (s : List Char), s.length ≤ fuel → containsSub (p :: ps) s = false →
    replaceScan p ps rep fuel s = s := by
  intro fuel
  induction fuel with
  | zero =>
    intro s hlen _
    cases s with
    | nil => rfl
    | cons c cs => simp at hlen
  | succ fuel ih =>
    intro s hlen h
    cases s with
    | nil => rfl
    | cons c cs =>
      obtain ⟨h1, h2⟩ := containsSub_cons_false h
      rw [replaceScan, if_neg (by simp [h1])]
      rw [ih cs (by simp only [List.length_cons] at hlen; omega) h2]

theorem replaceScan_single (p : Char) (ps rep : List Char) :
    ∀ (a b : List Char) (fuel : Nat),
    (a ++ ((p :: ps) ++ b)).length ≤ fuel →
    (∀ i, i < a.length → subAt (a ++ ((p :: ps) ++ b)) (p :: ps) i = false) →
    containsSub (p :: ps) b = false →
    replaceScan p ps rep fuel (a ++ ((p :: ps) ++ b)) = a ++ (rep ++ b) := by
  intro a
  induction a with
  | nil =>
    intro b fuel hfuel _ hb
    rw [List.nil_append] at hfuel ⊢
    cases fuel with
    | zero =>
      exfalso
      simp only [List.length_append, List.length_cons] at hfuel
      omega
    | succ fuel =>
      have hb2 : b.length ≤ fuel := by
        simp only [List.length_append, List.length_cons] at hfuel
        omega
      rw [List.cons_append, replaceScan,
        if_pos (show leadsWith (p :: ps) (p :: (ps ++ b)) = true from
          leadsWith_append (p :: ps) b)]
      rw [List.drop_left ps b, replaceScan_no_occurrence p ps rep fuel b hb2 hb]
      rfl
  | cons x xs ih =>
    intro b fuel hfuel ha hb
    cases fuel with
    | zero =>
      exfalso
      simp only [List.length_append, List.length_cons] at hfuel
      omega
    | succ fuel =>
      have ha' : ∀ i, i < xs.length → subAt (xs ++ ((p :: ps) ++ b)) (p :: ps) i = false := by
        intro i hi
        have := ha (i + 1) (by simpa using Nat.succ_lt_succ hi)
        simpa [subAt] using this
      have h0 : leadsWith (p :: ps) (x :: (xs ++ ((p :: ps) ++ b))) = false := by
        have h00 := ha 0 (by simp)
        simpa [subAt] using h00
      have hfuel' : (xs ++ ((p :: ps) ++ b)).length ≤ fuel := by
        simp only [List.length_append, List.length_cons] at hfuel ⊢
        omega
      have hstep : replaceScan p ps rep (fuel + 1) ((x :: xs) ++ ((p :: ps) ++ b)) =
          x :: replaceScan p ps rep fuel (xs ++ ((p :: ps) ++ b)) := by
        rw [List.cons_append, replaceScan, if_neg]
        simpa using h0
      rw [hstep, ih b fuel hfuel' ha' hb, List.cons_append]

theorem pyReplace_single_occurrence (pat rep a b : List Char) (hne : pat ≠ [])
    (ha : ∀ i, i < a.length → subAt (a ++ (pat ++ b)) pat i = false)
    (hb : containsSub pat b = false) :
    pyReplace (a ++ (pat ++ b)) pat rep = a ++ (rep ++ b) := by
  cases pat with
  | nil => exact absurd rfl hne
  | cons p ps =>
    exact replaceScan_single p ps rep a b (a ++ ((p :: ps) ++ b)).length (Nat.le_refl _) ha hb

theorem noMatchUpTo_spec {s pat : List Char} {k : Nat} (h : noMatchUpTo s pat k = true) :
    ∀ i, i < k → subAt s pat i = false := by
  intro i hi
  have := List.all_eq_true.mp h i (List.mem_range.mpr hi)
  simpa using this

/-- C7 amended: `str.replace` replaces every occurrence of a placeholder, not
exactly one; each of the three tokens is replaced exactly once precisely when
it occurs exactly once at each stage.  Formally: if the template splits as
`t1 · rows-token · t2 · detailed-token · t3 · footer-token · t4`, no earlier
match of the token being replaced exists at any stage, and no further
occurrence survives to the right, then the produced HTML is the template with
each token replaced exactly once by its generated fragment. -/
theorem generate_html_report_replaces_each_once
    (template : String) (results : List NetResult) (detailed : List DetailEntry)
    (mc mm : Nat) (t1 t2 t3 t4 : List Char)
    (htemp : template.data =
      t1 ++ (tokRows.data ++ (t2 ++ (tokDetailed.data ++ (t3 ++ (tokFooter.data ++ t4))))))
    (hA1 : noMatchUpTo template.data tokRows.data t1.length = true)
    (hB1 : containsSub tokRows.data
      (t2 ++ (tokDetailed.data ++ (t3 ++ (tokFooter.data ++ t4)))) = false)
    (hA2 : noMatchUpTo
      (t1 ++ ((rowsFrag results).data ++ (t2 ++ (tokDetailed.data ++ (t3 ++ (tokFooter.data ++ t4))))))
      tokDetailed.data (t1 ++ ((rowsFrag results).data ++ t2)).length = true)
    (hB2 : containsSub tokDetailed.data (t3 ++ (tokFooter.data ++ t4)) = false)
    (hA3 : noMatchUpTo
      (t1 ++ ((rowsFrag results).data ++ (t2 ++ ((detailedRowsFrag detailed).data ++ (t3 ++ (tokFooter.data ++ t4))))))
      tokFooter.data
      (t1 ++ ((rowsFrag results).data ++ (t2 ++ ((detailedRowsFrag detailed).data ++ t3)))).length = true)
    (hB3 : containsSub tokFooter.data t4 = false) :
    (generate_html_report template results detailed mc mm).data =
      t1 ++ ((rowsFrag results).data ++ (t2 ++ ((detailedRowsFrag detailed).data ++
        (t3 ++ ((footerFrag mc mm).data ++ t4))))) := by
  have hg : (generate_html_report template results detailed mc mm).data =
      pyReplace (pyReplace (pyReplace template.data tokRows.data (rowsFrag results).data)
        tokDetailed.data (detailedRowsFrag detailed).data)
        tokFooter.data (footerFrag mc mm).data := rfl
  have st1 : pyReplace template.data tokRows.data (rowsFrag results).data =
      t1 ++ ((rowsFrag results).data ++
        (t2 ++ (tokDetailed.data ++ (t3 ++ (tokFooter.data ++ t4))))) := by
    rw [htemp]
    apply pyReplace_single_occurrence _ _ _ _ (by decide)
    · intro i hi
      have h := noMatchUpTo_spec hA1 i hi
      rw [htemp] at h
      exact h
    · exact hB1
  have hre2 : t1 ++ ((rowsFrag results).data ++
      (t2 ++ (tokDetailed.data ++ (t3 ++ (tokFooter.data ++ t4))))) =
      (t1 ++ ((rowsFrag results).data ++ t2)) ++
        (tokDetailed.data ++ (t3 ++ (tokFooter.data ++ t4))) := by
    simp [List.append_assoc]
  have st2 : pyReplace
      (t1 ++ ((rowsFrag results).data ++
        (t2 ++ (tokDetailed.data ++ (t3 ++ (tokFooter.data ++ t4))))))
      tokDetailed.data (detailedRowsFrag detailed).data =
      (t1 ++ ((rowsFrag results).data ++ t2)) ++
        ((detailedRowsFrag detailed).data ++ (t3 ++ (tokFooter.data ++ t4))) := by
    rw [hre2]
    apply pyReplace_single_occurrence _ _ _ _ (by decide)
    · intro i hi
      have h := noMatchUpTo_spec hA2 i hi
      rw [hre2] at h
      exact h
    · exact hB2
  have hre3 : (t1 ++ ((rowsFrag results).data ++ t2)) ++
      ((detailedRowsFrag detailed).data ++ (t3 ++ (tokFooter.data ++ t4))) =
      (t1 ++ ((rowsFrag results).data ++ (t2 ++ ((detailedRowsFrag detailed).data ++ t3)))) ++
        (tokFooter.data ++ t4) := by
    simp [List.append_assoc]
  have hre3' : t1 ++ ((rowsFrag results).data ++
      (t2 ++ ((detailedRowsFrag detailed).data ++ (t3 ++ (tokFooter.data ++ t4))))) =
      (t1 ++ ((rowsFrag results).data ++ (t2 ++ ((detailedRowsFrag detailed).data ++ t3)))) ++
        (tokFooter.data ++ t4) := by
    simp [List.append_assoc]
  have st3 : pyReplace
      ((t1 ++ ((rowsFrag results).data ++ t2)) ++
        ((detailedRowsFrag detailed).data ++ (t3 ++ (tokFooter.data ++ t4))))
      tokFooter.data (footerFrag mc mm).data =
      (t1 ++ ((rowsFrag results).data ++ (t2 ++ ((detailedRowsFrag detailed).data ++ t3)))) ++
        ((footerFrag mc mm).data ++ t4) := by
    rw [hre3]
    apply pyReplace_single_occurrence _ _ _ _ (by decide)
    · intro i hi
      have h := noMatchUpTo_spec hA3 i hi
      rw [hre3'] at h
      exact h
    · exact hB3
  rw [hg, st1, st2, st3]
  simp [List.append_assoc]

theorem generate_html_report_replaces_each_once_witness :
    (generate_html_report
      "A\x7b\x7b rows \x7d\x7dB\x7b\x7b detailed_rows \x7d\x7dC\x7b\x7b footer_info \x7d\x7dD"
      [] [] 0 0).data =
      "A".data ++ ((rowsFrag []).data ++ ("B".data ++ ((detailedRowsFrag []).data ++
        ("C".data ++ ((footerFrag 0 0).data ++ "D".data))))) := by
  exact generate_html_report_replaces_each_once
    "A\x7b\x7b rows \x7d\x7dB\x7b\x7b detailed_rows \x7d\x7dC\x7b\x7b footer_info \x7d\x7dD"
    [] [] 0 0 "A".data "B".data "C".data "D".data
    (by decide) (by decide) (by decide) (by decide) (by decide) (by decide) (by decide)

set_option maxRecDepth 100000 in
/-- C7 counterexample: on a template in which the token `{{ rows }}` occurs
twice, `generate_html_report` substitutes the rows fragment at both
occurrences (Python `str.replace` replaces every occurrence), so the produced
HTML is not the result of replacing the token exactly once. -/
theorem generate_html_report_token_twice_counterexample :
    isSingleReplacement
      "A\x7b\x7b rows \x7d\x7dB\x7b\x7b rows \x7d\x7dC".data tokRows.data
      (rowsFrag [{ net_name := "N", net_code1 := "1", count1 := 0, net_code2 := "1",
                   count2 := 0, mismatch := false }]).data
      (generate_html_report "A\x7b\x7b rows \x7d\x7dB\x7b\x7b rows \x7d\x7dC"
        [{ net_name := "N", net_code1 := "1", count1 := 0, net_code2 := "1",
           count2 := 0, mismatch := false }] [] 1 0).data = false := by
  decide
